import Mathlib

/-!
Shallow embedding of the core of `stock_monitor.py`: the column-wise color
classifier (`ImageProcessor.detect_line_crossing` and its helpers) and the
transition state engine (`NotificationManager.get_last_logged_crossing`,
`NotificationManager.should_log_transition`, and the effective-crossing
decision logic of `StockChartMonitor.monitor_line_crossings`).
-/

namespace StockMonitor

/-- Per-column dominant-color label: the strings "red" / "black" / "unknown"
in the source. -/
inductive Color
  | red
  | black
  | unknown
deriving DecidableEq

/-- Crossing verdict: the strings "red_to_black" / "black_to_red" /
"no_crossing" in the source. -/
inductive Crossing
  | red_to_black
  | black_to_red
  | no_crossing
deriving DecidableEq

/-- A pixel in HSV space, as produced by `cv2.cvtColor(..., COLOR_BGR2HSV)`
(the color-space conversion itself is external library code; the classifier
consumes the converted values). -/
structure HSV where
  h : Nat
  s : Nat
  v : Nat
deriving DecidableEq

def RED_HUE_LOWER1 : HSV := ⟨0, 30, 30⟩
def RED_HUE_UPPER1 : HSV := ⟨15, 255, 255⟩
def RED_HUE_LOWER2 : HSV := ⟨165, 30, 30⟩
def RED_HUE_UPPER2 : HSV := ⟨180, 255, 255⟩
def BLACK_HUE_LOWER : HSV := ⟨0, 0, 0⟩
def BLACK_HUE_UPPER : HSV := ⟨180, 150, 100⟩

/-- Componentwise bound check of `cv2.inRange` at a single pixel. -/
def inRange (p lo hi : HSV) : Bool :=
  decide (lo.h ≤ p.h ∧ p.h ≤ hi.h ∧ lo.s ≤ p.s ∧ p.s ≤ hi.s ∧ lo.v ≤ p.v ∧ p.v ≤ hi.v)

/-- Membership in `red_mask = cv2.bitwise_or(red_mask1, red_mask2)`. -/
def red_mask (p : HSV) : Bool :=
  inRange p RED_HUE_LOWER1 RED_HUE_UPPER1 || inRange p RED_HUE_LOWER2 RED_HUE_UPPER2

/-- Membership in `black_mask = cv2.inRange(hsv, black_lower, black_upper)`. -/
def black_mask (p : HSV) : Bool :=
  inRange p BLACK_HUE_LOWER BLACK_HUE_UPPER

/-- An image section as a list of pixel rows (the numpy array is rectangular;
row index first, as in `array[y, x]`). -/
abbrev ImageSection := List (List HSV)

def hsv0 : HSV := ⟨0, 0, 0⟩

/-- `height` from `image_section.shape[:2]`. -/
def sectionHeight (img : ImageSection) : Nat := img.length

/-- `width` from `image_section.shape[:2]` (rows are rectangular in the source). -/
def sectionWidth (img : ImageSection) : Nat := (img.headD []).length

/-- Red-candidate pixel count of column `x` restricted to the middle 50 percent
of the height: `cv2.countNonZero(red_mask[middle_top:middle_bottom, x:x+1])`
with `middle_top = height // 4` and `middle_bottom = 3 * height // 4`. -/
def col_red_pixels (img : ImageSection) (x : Nat) : Nat :=
  let height := sectionHeight img
  let middle_top := height / 4
  let middle_bottom := 3 * height / 4
  (((img.drop middle_top).take (middle_bottom - middle_top)).map
    (fun row => row.getD x hsv0)).countP red_mask

/-- Black-candidate pixel count of column `x` restricted to the middle 50
percent of the height. -/
def col_black_pixels (img : ImageSection) (x : Nat) : Nat :=
  let height := sectionHeight img
  let middle_top := height / 4
  let middle_bottom := 3 * height / 4
  (((img.drop middle_top).take (middle_bottom - middle_top)).map
    (fun row => row.getD x hsv0)).countP black_mask

/-- Dominant color of a column from its pixel counts (lines 211-240 of
`stock_monitor.py`): `adjusted_red_pixels = max(0, col_red_pixels - 1)`,
then the `if / elif / else` comparison chain. -/
def column_label_of_counts (col_red_pixels col_black_pixels : Nat) : Color :=
  let adjusted_red_pixels := max 0 (col_red_pixels - 1)
  if 0 < adjusted_red_pixels ∧ col_black_pixels ≤ adjusted_red_pixels then .red
  else if 0 < col_black_pixels ∧ adjusted_red_pixels ≤ col_black_pixels then .black
  else .unknown

/-- Label assigned to column `x` of the section. -/
def columnLabel (img : ImageSection) (x : Nat) : Color :=
  column_label_of_counts (col_red_pixels img x) (col_black_pixels img x)

/-- `column_colors`, built by the `for x in range(width)` loop. -/
def column_colors (img : ImageSection) : List Color :=
  (List.range (sectionWidth img)).map (columnLabel img)

/-- `ImageProcessor.get_rightmost_column_color`: last non-unknown label,
scanning from the right; unknown when none exists. -/
def get_rightmost_column_color (column_colors : List Color) : Color :=
  match column_colors.reverse.find? (fun c => decide (c ≠ Color.unknown)) with
  | some c => c
  | none => .unknown

/-- Indices appended by the `for i in range(1, len(column_colors))` scan when
`column_colors[i-1] == "red" and column_colors[i] == "black"`; the `0 < i`
conjunct expresses that the scan starts at index 1. -/
def red_to_black_transitions (cs : List Color) : List Nat :=
  (List.range cs.length).filter
    (fun i => decide (0 < i ∧ cs.getD (i - 1) .unknown = Color.red ∧ cs.getD i .unknown = Color.black))

/-- Indices with `column_colors[i-1] == "black" and column_colors[i] == "red"`. -/
def black_to_red_transitions (cs : List Color) : List Nat :=
  (List.range cs.length).filter
    (fun i => decide (0 < i ∧ cs.getD (i - 1) .unknown = Color.black ∧ cs.getD i .unknown = Color.red))

/-- Verdict and rightmost color from the label sequence (lines 262-318 of
`stock_monitor.py`, non-debug path). -/
def classify_column_colors (cs : List Color) : Crossing × Color :=
  if Color.red ∉ cs ∨ Color.black ∉ cs then
    (.no_crossing, get_rightmost_column_color cs)
  else
    let red_to_black_count := (red_to_black_transitions cs).length
    let black_to_red_count := (black_to_red_transitions cs).length
    let result :=
      if black_to_red_count < red_to_black_count ∧ 0 < red_to_black_count then
        Crossing.red_to_black
      else if red_to_black_count < black_to_red_count ∧ 0 < black_to_red_count then
        Crossing.black_to_red
      else Crossing.no_crossing
    (result, get_rightmost_column_color cs)

/-- The `cv2.error` that `cv2.cvtColor` raises on an empty input array
(OpenCV asserts `!_src.empty()` before converting); nothing inside
`detect_line_crossing` catches it. -/
inductive CvError
  | cvtColorEmptySrc
deriving DecidableEq

/-- `ImageProcessor.detect_line_crossing` with `debug=False`. A `none` section
yields `Except.ok none` (the early `return None`, documented as "analysis
failed"). For a non-`none` section the first step is
`cv2.cvtColor(image_section, COLOR_BGR2HSV)` (line 175), which raises
`cv2.error` when the section has zero area (zero height or zero width) -
modeled as the `Except.error` branch; otherwise the column analysis runs and a
`(crossing type, rightmost color)` pair is returned. -/
def detect_line_crossing (image_section : Option ImageSection) :
    Except CvError (Option (Crossing × Color)) :=
  match image_section with
  | none => .ok none
  | some img =>
    if sectionHeight img = 0 ∨ sectionWidth img = 0 then .error .cvtColorEmptySrc
    else .ok (some (classify_column_colors (column_colors img)))

/-- A pixel in OpenCV BGR channel order. -/
abbrev BGR := Nat × Nat × Nat

/-- An image as a list of pixel rows (numpy arrays are rectangular). -/
abbrev BGRImage := List (List BGR)

/-- `ImageProcessor.IMAGE_DIFF_THRESHOLD`. -/
def IMAGE_DIFF_THRESHOLD : Nat := 100

/-- Channelwise `cv2.absdiff`. -/
def absdiff_channel (a b : Nat) : Nat := max a b - min a b

/-- `cv2.absdiff` at one pixel. -/
def absdiff_pixel (p q : BGR) : BGR :=
  (absdiff_channel p.1 q.1, absdiff_channel p.2.1 q.2.1, absdiff_channel p.2.2 q.2.2)

/-- OpenCV `COLOR_BGR2GRAY` in its fixed-point form:
`(4899 * R + 9617 * G + 1868 * B + 2^13) >> 14` (the conversion itself is
external library code; the comparison only needs whether it is zero). -/
def bgr_to_gray (p : BGR) : Nat :=
  (4899 * p.2.2 + 9617 * p.2.1 + 1868 * p.1 + 8192) / 16384

/-- `cv2.countNonZero(cv2.cvtColor(cv2.absdiff(img1, img2), COLOR_BGR2GRAY))`
for same-shape images. -/
def count_nonzero_graydiff (a b : BGRImage) : Nat :=
  ((a.zip b).map
    (fun rp => (rp.1.zip rp.2).countP
      (fun pq => decide (bgr_to_gray (absdiff_pixel pq.1 pq.2) ≠ 0)))).sum

/-- Shapes agree: same number of rows and, row by row, the same width
(`img1.shape != img2.shape` on rectangular arrays). -/
def same_shape (a b : BGRImage) : Prop := a.map List.length = b.map List.length

instance (a b : BGRImage) : Decidable (same_shape a b) := by
  unfold same_shape
  infer_instance

/-- `ImageProcessor.images_are_different` (lines 320-344 of `stock_monitor.py`). -/
def images_are_different (img1 img2 : Option BGRImage) : Bool :=
  match img1, img2 with
  | none, _ => true
  | _, none => true
  | some a, some b =>
    if ¬ same_shape a b then true
    else decide (IMAGE_DIFF_THRESHOLD < count_nonzero_graydiff a b)

/-- `ImageProcessor.DEFAULT_START_Y`. -/
def DEFAULT_START_Y : Int := 125

/-- `ImageProcessor.DEFAULT_END_Y`. -/
def DEFAULT_END_Y : Int := 403

/-- `ImageProcessor.DEFAULT_START_X`. -/
def DEFAULT_START_X : Int := 620

/-- `ImageProcessor.DEFAULT_END_X`. -/
def DEFAULT_END_X : Int := 650

/-- The horizontal bounds computed by `extract_middle_section`: defaults clamped
to the width when either caller bound is absent, otherwise
`start_x = max(0, min(start_x, width - 1))` and
`end_x = max(start_x + 1, min(end_x, width))`. -/
def ems_x_bounds (width : Nat) (start_x end_x : Option Int) : Int × Int :=
  match start_x, end_x with
  | some sx, some ex =>
    let s := max 0 (min sx ((width : Int) - 1))
    (s, max (s + 1) (min ex (width : Int)))
  | _, _ => (min DEFAULT_START_X (width : Int), min DEFAULT_END_X (width : Int))

/-- `ImageProcessor.extract_middle_section` (lines 116-145 of `stock_monitor.py`).
Caller bounds are Python ints; after clamping all slice bounds are nonnegative,
so `image[start_y:end_y, start_x:end_x]` is drop-and-take on rows and columns. -/
def extract_middle_section (image : Option BGRImage)
    (start_x end_x start_y end_y : Option Int) : Option BGRImage :=
  match image with
  | none => none
  | some img =>
    let height := img.length
    let width := (img.headD []).length
    let sy := start_y.getD DEFAULT_START_Y
    let ey := end_y.getD DEFAULT_END_Y
    let xb := ems_x_bounds width start_x end_x
    let syc := max 0 (min sy ((height : Int) - 1))
    let eyc := max (syc + 1) (min ey (height : Int))
    some (((img.drop syc.toNat).take (eyc - syc).toNat).map
      (fun row => (row.drop xb.1.toNat).take (xb.2 - xb.1).toNat))

/-- Calendar day of a log line's timestamp (only equality of days matters to
the engine, so days are numbered). -/
abbrev Date := Nat

/-- One crossing kind as it appears in a log line; the regex
`Line crossing detected: (red_to_black|black_to_red)` only ever matches these
two. -/
inductive CrossKind
  | red_to_black
  | black_to_red
deriving DecidableEq

/-- The crossing value the engine reconstructs from a matched log line. -/
def CrossKind.toCrossing : CrossKind → Crossing
  | .red_to_black => .red_to_black
  | .black_to_red => .black_to_red

/-- One line of the persisted append-only log, classified by the substring
patterns the engine matches on: a `Line crossing detected: <kind>` line, a
`Current line color: <color>` line (the color may be "unknown", which the
`(red|black)` regex skips), or any other line (monitoring/image/email
bookkeeping entries match neither pattern). -/
inductive LogLine
  | crossing (date : Date) (kind : CrossKind)
  | colorSnapshot (date : Date) (color : Color)
  | other (date : Date)
deriving DecidableEq

/-- The most recent crossing kind in the lines, scanning from the end
(`for line in reversed(lines)` with the crossing regex). -/
def last_cross_kind (lines : List LogLine) : Option CrossKind :=
  lines.reverse.findSome? (fun l =>
    match l with
    | .crossing _ kk => some kk
    | _ => none)

/-- `NotificationManager.get_last_logged_crossing` (lines 478-512): a missing
or unreadable log file (`none`) and an empty or crossing-free log all yield
"no_crossing". -/
def get_last_logged_crossing (history : Option (List LogLine)) : Crossing :=
  match history with
  | none => .no_crossing
  | some lines =>
    match last_cross_kind lines with
    | some kk => kk.toCrossing
    | none => .no_crossing

/-- Does this line match both `\[<today>` and
`Line crossing detected: <crossing>`? -/
def is_crossing_line_of (l : LogLine) (today : Date) (crossing : Crossing) : Bool :=
  match l with
  | .crossing d kk => decide (d = today) && decide (kk.toCrossing = crossing)
  | _ => false

/-- Whether a crossing-event line of the given kind dated `today` exists in
the log (false for a missing log). -/
def crossing_logged_on (history : Option (List LogLine)) (today : Date) (crossing : Crossing) : Bool :=
  match history with
  | none => false
  | some lines => lines.any (fun l => is_crossing_line_of l today crossing)

/-- `NotificationManager.should_log_transition` (lines 514-565): never for
"no_crossing"; always when different from the last logged crossing; otherwise
only when no line of this kind is dated today (a missing or unreadable file at
the today-check also answers True). -/
def should_log_transition (history : Option (List LogLine)) (today : Date)
    (current_crossing : Crossing) : Bool :=
  if current_crossing = Crossing.no_crossing then false
  else if get_last_logged_crossing history ≠ current_crossing then true
  else
    match history with
    | none => true
    | some lines => !(lines.any (fun l => is_crossing_line_of l today current_crossing))

/-- The most recent `Current line color: (red|black)` match, scanning from the
end (lines 1193-1204 of `stock_monitor.py`); `none` for a missing or
unreadable file and when no line matches. -/
def last_logged_color (history : Option (List LogLine)) : Option Color :=
  match history with
  | none => none
  | some lines =>
    lines.reverse.findSome? (fun l =>
      match l with
      | .colorSnapshot _ c =>
        match c with
        | .red => some Color.red
        | .black => some Color.black
        | .unknown => none
      | _ => none)

/-- `manual_color_crossing` (lines 1206-1212): inferred only when a logged
color exists and differs from the rightmost color, and only for the two
red/black combinations. -/
def manual_color_crossing (last_color : Option Color) (rightmost_color : Color) : Crossing :=
  match last_color with
  | none => .no_crossing
  | some lc =>
    if lc ≠ rightmost_color then
      if lc = Color.red ∧ rightmost_color = Color.black then .red_to_black
      else if lc = Color.black ∧ rightmost_color = Color.red then .black_to_red
      else .no_crossing
    else .no_crossing

/-- `effective_crossing` (lines 1214-1217): the detected crossing, replaced by
the manual inference only when the detector saw no crossing. -/
def effective_crossing (history : Option (List LogLine)) (current_crossing : Crossing)
    (rightmost_color : Color) : Crossing :=
  let manual := manual_color_crossing (last_logged_color history) rightmost_color
  if current_crossing = Crossing.no_crossing ∧ manual ≠ Crossing.no_crossing then manual
  else current_crossing

/-- What one classify-and-decide cycle does with its result
(lines 1219-1239 of `stock_monitor.py`). -/
inductive Decision
  | notify (kind : Crossing) (rightmost : Color)
  | unchangedSnapshot (kind : Crossing) (rightmost : Color)
  | crossingRemains (kind : Crossing)
  | snapshotNoCrossing (rightmost : Color)
deriving DecidableEq

/-- The decision branch of `monitor_line_crossings` after classification
(lines 1185-1239): notify when the effective crossing is real and
`should_log_transition` allows it; otherwise record an "unchanged" color line
when the effective crossing equals the last logged one, or only print when it
differs; with no effective crossing, record the current color silently. -/
def monitor_step (history : Option (List LogLine)) (today : Date)
    (current_crossing : Crossing) (rightmost_color : Color) : Decision :=
  let last_crossing := get_last_logged_crossing history
  let eff := effective_crossing history current_crossing rightmost_color
  if eff ≠ Crossing.no_crossing ∧ should_log_transition history today eff = true then
    .notify eff rightmost_color
  else if eff ≠ Crossing.no_crossing then
    if eff = last_crossing then .unchangedSnapshot eff rightmost_color
    else .crossingRemains eff
  else .snapshotNoCrossing rightmost_color

/-- The log lines a decision appends (the timestamp day is `today`). A notify
writes the crossing line then the silent color line; EMAIL SENT / EMAIL ERROR
bookkeeping lines match neither reader pattern and are omitted. The
unreachable `notify no_crossing` case appends nothing. -/
def entries_for (today : Date) : Decision → List LogLine
  | .notify k c =>
    match k with
    | .red_to_black => [.crossing today .red_to_black, .colorSnapshot today c]
    | .black_to_red => [.crossing today .black_to_red, .colorSnapshot today c]
    | .no_crossing => []
  | .unchangedSnapshot _ c => [.colorSnapshot today c]
  | .crossingRemains _ => []
  | .snapshotNoCrossing c => [.colorSnapshot today c]

/-- One observation fed to a classify-and-decide cycle: the calendar day, the
classifier verdict and the rightmost color of that cycle's image. -/
structure Cycle where
  today : Date
  current : Crossing
  rightmost : Color
deriving DecidableEq

/-- Default cycle used only to state index lemmas with `getD`. -/
def cyc0 : Cycle := ⟨0, Crossing.no_crossing, Color.unknown⟩

/-- Run one cycle: decide on the current history, then append the entries the
decision writes. -/
def step_cycle (h : List LogLine) (c : Cycle) : List LogLine :=
  h ++ entries_for c.today (monitor_step (some h) c.today c.current c.rightmost)

/-- History after a sequence of cycles. -/
def run_hist (h : List LogLine) : List Cycle → List LogLine
  | [] => h
  | c :: cs => run_hist (step_cycle h c) cs

/-- The decisions a sequence of cycles produces, in order. -/
def run_decisions (h : List LogLine) : List Cycle → List Decision
  | [] => []
  | c :: cs =>
    monitor_step (some h) c.today c.current c.rightmost :: run_decisions (step_cycle h c) cs

/-- A log where a red_to_black crossing was already notified today (day 7) and
the most recently matched color line says red. -/
def c6_history : List LogLine :=
  [.crossing 7 .red_to_black, .colorSnapshot 7 .black, .colorSnapshot 7 .red]

/-- C2 counterexample cycles: a red_to_black notify, a black_to_red notify and
then another red_to_black observation, all on day 5. -/
def c2_cycles : List Cycle :=
  [⟨5, Crossing.red_to_black, Color.black⟩,
   ⟨5, Crossing.black_to_red, Color.red⟩,
   ⟨5, Crossing.red_to_black, Color.black⟩]

/-- C3: a column is labeled Red iff its adjusted red count (raw red-candidate
count in the middle 50 percent of the height, minus one, floored at zero) is
positive and at least the black count; Black iff the black count is positive,
at least the adjusted red count, and the Red condition fails (the `if/elif`
order makes a positive tie favor Red); Unknown otherwise. In particular raw
red 1 with black 0 labels Unknown, and a positive adjusted-red tied with an
equal black count labels Red. -/
theorem C3_column_label (img : ImageSection) (x : Nat) (n : Nat) :
    (columnLabel img x = Color.red ↔
      0 < max 0 (col_red_pixels img x - 1)
        ∧ col_black_pixels img x ≤ max 0 (col_red_pixels img x - 1))
    ∧ (columnLabel img x = Color.black ↔
      0 < col_black_pixels img x
        ∧ max 0 (col_red_pixels img x - 1) ≤ col_black_pixels img x
        ∧ ¬(0 < max 0 (col_red_pixels img x - 1)
              ∧ col_black_pixels img x ≤ max 0 (col_red_pixels img x - 1)))
    ∧ (columnLabel img x = Color.unknown ↔
      ¬(0 < max 0 (col_red_pixels img x - 1)
          ∧ col_black_pixels img x ≤ max 0 (col_red_pixels img x - 1))
        ∧ ¬(0 < col_black_pixels img x
              ∧ max 0 (col_red_pixels img x - 1) ≤ col_black_pixels img x))
    ∧ column_label_of_counts 1 0 = Color.unknown
    ∧ column_label_of_counts (n + 2) (n + 1) = Color.red := by
  have base : ∀ r b : Nat,
      (column_label_of_counts r b = Color.red ↔
        0 < max 0 (r - 1) ∧ b ≤ max 0 (r - 1))
      ∧ (column_label_of_counts r b = Color.black ↔
        0 < b ∧ max 0 (r - 1) ≤ b ∧ ¬(0 < max 0 (r - 1) ∧ b ≤ max 0 (r - 1)))
      ∧ (column_label_of_counts r b = Color.unknown ↔
        ¬(0 < max 0 (r - 1) ∧ b ≤ max 0 (r - 1))
          ∧ ¬(0 < b ∧ max 0 (r - 1) ≤ b)) := by
    intro r b
    unfold column_label_of_counts
    dsimp only
    split_ifs with h1 h2 <;>
      refine ⟨?_, ?_, ?_⟩ <;> simp_all <;> omega
  refine ⟨(base _ _).1, (base _ _).2.1, (base _ _).2.2, by decide, ?_⟩
  exact (base (n + 2) (n + 1)).1.mpr (by omega)

/-- C4: the classifier verdict is no_crossing iff the label sequence lacks a
Red label, lacks a Black label, or the two transition counts are equal;
otherwise the verdict is the transition kind with the strictly greater count. -/
theorem C4_classify_verdict (cs : List Color) :
    ((classify_column_colors cs).1 = Crossing.red_to_black ↔
      Color.red ∈ cs ∧ Color.black ∈ cs
        ∧ (black_to_red_transitions cs).length < (red_to_black_transitions cs).length)
    ∧ ((classify_column_colors cs).1 = Crossing.black_to_red ↔
      Color.red ∈ cs ∧ Color.black ∈ cs
        ∧ (red_to_black_transitions cs).length < (black_to_red_transitions cs).length)
    ∧ ((classify_column_colors cs).1 = Crossing.no_crossing ↔
      (Color.red ∉ cs ∨ Color.black ∉ cs
        ∨ (red_to_black_transitions cs).length = (black_to_red_transitions cs).length)) := by
  by_cases h1 : Color.red ∈ cs ∧ Color.black ∈ cs
  · obtain ⟨hr, hb⟩ := h1
    unfold classify_column_colors
    rw [if_neg (by simp [hr, hb])]
    dsimp only
    rcases Nat.lt_trichotomy (red_to_black_transitions cs).length
        (black_to_red_transitions cs).length with hlt | heq | hgt
    · rw [if_neg (by omega), if_pos ⟨hlt, by omega⟩]
      refine ⟨?_, ?_, ?_⟩ <;> simp [hr, hb] <;> omega
    · rw [if_neg (by omega), if_neg (by omega)]
      refine ⟨?_, ?_, ?_⟩ <;> simp [hr, hb] <;> omega
    · rw [if_pos ⟨hgt, by omega⟩]
      refine ⟨?_, ?_, ?_⟩ <;> simp [hr, hb] <;> omega
  · unfold classify_column_colors
    rw [if_pos (by tauto)]
    refine ⟨?_, ?_, ?_⟩ <;> simp <;> tauto

/-- C1: for every effective crossing and persisted history, the engine decides
to notify (log the crossing event and send the email) iff the crossing is real
and either differs from the most recent logged crossing kind or no
crossing-event line of that kind is dated today; a no_crossing input never
notifies. -/
theorem C1_notify_iff (history : Option (List LogLine)) (today : Date) (eff : Crossing) :
    should_log_transition history today eff = true ↔
      eff ≠ Crossing.no_crossing
        ∧ (eff ≠ get_last_logged_crossing history
             ∨ crossing_logged_on history today eff = false) := by
  unfold should_log_transition
  split_ifs with h1 h2
  · simp [h1]
  · simp [h1, Ne.symm h2]
  · push_neg at h2
    cases history with
    | none => simp [crossing_logged_on, h1, h2]
    | some lines => simp [crossing_logged_on, h1, h2]

/-- C7: with a missing or unreadable log file (modeled as `none`) the engine
behaves as with an empty history and is total: the last logged crossing is
no_crossing, and a transition should be logged exactly when it is a real
crossing (so the first real crossing notifies). -/
theorem C7_missing_log (today : Date) (k : Crossing) :
    get_last_logged_crossing none = Crossing.no_crossing
    ∧ (should_log_transition none today k = true ↔ k ≠ Crossing.no_crossing)
    ∧ get_last_logged_crossing (some []) = Crossing.no_crossing
    ∧ should_log_transition none today k = should_log_transition (some []) today k := by
  refine ⟨rfl, ?_, rfl, ?_⟩ <;>
    cases k <;> simp [should_log_transition, get_last_logged_crossing, last_cross_kind]

/-- C8 counterexample: at the zero-area section with one empty row the
classifier raises the `cv2.cvtColor` empty-source error instead of returning
the no_crossing / unknown pair, and at a missing (`None`) section it returns
`None` (the documented "analysis failed" result), again not that pair. -/
theorem C8_counterexample :
    detect_line_crossing (some [([] : List HSV)]) = Except.error CvError.cvtColorEmptySrc
    ∧ detect_line_crossing (some [([] : List HSV)])
        ≠ Except.ok (some (Crossing.no_crossing, Color.unknown))
    ∧ detect_line_crossing none = Except.ok none
    ∧ detect_line_crossing none ≠ Except.ok (some (Crossing.no_crossing, Color.unknown)) := by
  refine ⟨rfl, by simp [detect_line_crossing, sectionHeight, sectionWidth], rfl,
    by simp [detect_line_crossing]⟩

/-- C8 amended: for a missing (`None`) section the classifier returns `None`
("analysis failed") without raising, not a verdict pair; for a zero-area
section (zero height or zero width) `cv2.cvtColor` raises `cv2.error`
(OpenCV's `!_src.empty()` assertion) before any column analysis, so the
classifier raises rather than returning a verdict. -/
theorem C8_malformed_region (img : ImageSection)
    (hz : sectionHeight img = 0 ∨ sectionWidth img = 0) :
    detect_line_crossing none = Except.ok none
    ∧ detect_line_crossing none ≠ Except.ok (some (Crossing.no_crossing, Color.unknown))
    ∧ detect_line_crossing (some img) = Except.error CvError.cvtColorEmptySrc := by
  refine ⟨rfl, by simp [detect_line_crossing], ?_⟩
  show (if sectionHeight img = 0 ∨ sectionWidth img = 0 then
      Except.error CvError.cvtColorEmptySrc
    else Except.ok (some (classify_column_colors (column_colors img))))
    = Except.error CvError.cvtColorEmptySrc
  rw [if_pos hz]

/-- Witness for the amended C8 at the empty section. -/
theorem C8_malformed_region_witness :
    detect_line_crossing none = Except.ok none
    ∧ detect_line_crossing none ≠ Except.ok (some (Crossing.no_crossing, Color.unknown))
    ∧ detect_line_crossing (some ([] : ImageSection)) = Except.error CvError.cvtColorEmptySrc :=
  C8_malformed_region [] (Or.inl rfl)

theorem absdiff_pixel_self (p : BGR) : absdiff_pixel p p = (0, 0, 0) := by
  unfold absdiff_pixel absdiff_channel
  simp

theorem row_graydiff_self (l : List BGR) :
    (l.zip l).countP (fun pq => decide (bgr_to_gray (absdiff_pixel pq.1 pq.2) ≠ 0)) = 0 := by
  induction l with
  | nil => rfl
  | cons p ps ih =>
    rw [List.zip_cons_cons, List.countP_cons, ih]
    have hg : bgr_to_gray (absdiff_pixel p p) = 0 := by
      rw [absdiff_pixel_self]
      rfl
    simp [hg]

theorem count_nonzero_graydiff_self (a : BGRImage) : count_nonzero_graydiff a a = 0 := by
  unfold count_nonzero_graydiff
  induction a with
  | nil => rfl
  | cons r rs ih =>
    rw [List.zip_cons_cons, List.map_cons, List.sum_cons, ih, row_graydiff_self]

/-- C9: the comparison reports "unchanged" (False) iff both images exist, have
the same shape, and at most IMAGE_DIFF_THRESHOLD = 100 pixel positions have a
nonzero grayscale absolute difference; two identical arrays always compare
unchanged, and a comparison against a missing image always reports different. -/
theorem C9_images_are_different (img1 img2 : Option BGRImage) :
    (images_are_different img1 img2 = false ↔
      ∃ a b, img1 = some a ∧ img2 = some b ∧ same_shape a b
        ∧ count_nonzero_graydiff a b ≤ IMAGE_DIFF_THRESHOLD)
    ∧ (∀ a : BGRImage, images_are_different (some a) (some a) = false)
    ∧ images_are_different img1 none = true
    ∧ images_are_different none img2 = true := by
  have hself : ∀ a : BGRImage, images_are_different (some a) (some a) = false := by
    intro a
    show (if ¬ same_shape a a then true
      else decide (IMAGE_DIFF_THRESHOLD < count_nonzero_graydiff a a)) = false
    rw [if_neg (by simp [same_shape])]
    simp [count_nonzero_graydiff_self, IMAGE_DIFF_THRESHOLD]
  refine ⟨?_, hself, ?_, ?_⟩
  · cases img1 with
    | none => simp [images_are_different]
    | some a =>
      cases img2 with
      | none => simp [images_are_different]
      | some b =>
        show (if ¬ same_shape a b then true
          else decide (IMAGE_DIFF_THRESHOLD < count_nonzero_graydiff a b)) = false ↔ _
        by_cases hs : same_shape a b
        · rw [if_neg (by simpa using hs)]
          simp only [decide_eq_false_iff_not, not_lt, Option.some.injEq]
          constructor
          · intro hc
            exact ⟨a, b, rfl, rfl, hs, hc⟩
          · rintro ⟨a', b', rfl, rfl, _, hc⟩
            exact hc
        · rw [if_pos (by simpa using hs)]
          simp only [Bool.true_eq_false, false_iff, not_exists]
          rintro a' b' ⟨ha, hb, hsh, _⟩
          rw [Option.some.injEq] at ha hb
          exact hs (ha ▸ hb ▸ hsh)
  · cases img1 <;> rfl
  · cases img2 <;> rfl

/-- C6 counterexample: the classifier says no_crossing, the last logged color
red differs from the rightmost black, so red_to_black is inferred as the
effective crossing - yet the engine does not produce a notification (that kind
is the last logged crossing and is already logged today); it records an
unchanged-color line instead. -/
theorem C6_counterexample :
    last_logged_color (some c6_history) = some Color.red
    ∧ effective_crossing (some c6_history) Crossing.no_crossing Color.black
        = Crossing.red_to_black
    ∧ monitor_step (some c6_history) 7 Crossing.no_crossing Color.black
        = Decision.unchangedSnapshot Crossing.red_to_black Color.black
    ∧ Decision.unchangedSnapshot Crossing.red_to_black Color.black
        ≠ Decision.notify Crossing.red_to_black Color.black := by
  decide

/-- C6 amended: when the classifier reports no_crossing and the last logged
color exists and differs from the rightmost color in one of the two red/black
ways, the corresponding kind becomes the effective crossing and the engine
notifies it exactly when `should_log_transition` allows; a verdict other than
no_crossing is always itself the effective crossing, never overridden by the
inference. -/
theorem C6_manual_inference (history : Option (List LogLine)) (today : Date)
    (rightmost lc : Color) (k : Crossing)
    (hlc : last_logged_color history = some lc)
    (hinf : (lc = Color.red ∧ rightmost = Color.black ∧ k = Crossing.red_to_black)
          ∨ (lc = Color.black ∧ rightmost = Color.red ∧ k = Crossing.black_to_red)) :
    effective_crossing history Crossing.no_crossing rightmost = k
    ∧ (monitor_step history today Crossing.no_crossing rightmost = Decision.notify k rightmost
        ↔ should_log_transition history today k = true)
    ∧ (∀ rm : Color,
        effective_crossing history Crossing.red_to_black rm = Crossing.red_to_black
        ∧ effective_crossing history Crossing.black_to_red rm = Crossing.black_to_red) := by
  have heff : effective_crossing history Crossing.no_crossing rightmost = k := by
    rcases hinf with ⟨h1, h2, h3⟩ | ⟨h1, h2, h3⟩ <;>
      subst h1 <;> subst h2 <;> subst h3 <;>
      simp [effective_crossing, manual_color_crossing, hlc]
  have hknc : k ≠ Crossing.no_crossing := by
    rcases hinf with ⟨_, _, h3⟩ | ⟨_, _, h3⟩ <;> subst h3 <;> simp
  refine ⟨heff, ?_, ?_⟩
  · unfold monitor_step
    rw [heff]
    by_cases hsl : should_log_transition history today k = true
    · rw [if_pos ⟨hknc, hsl⟩]
      simp [hsl]
    · rw [if_neg (by tauto)]
      rw [if_pos hknc]
      constructor
      · intro hcontra
        split_ifs at hcontra <;> simp at hcontra
      · intro hcontra
        exact absurd hcontra hsl
  · intro rm
    constructor <;> simp [effective_crossing]

/-- Witness for the amended C6: with only a red color line logged on day 3 and
a black rightmost column, red_to_black is inferred and would notify. -/
theorem C6_manual_inference_witness :
    effective_crossing (some [LogLine.colorSnapshot 3 .red]) Crossing.no_crossing Color.black
        = Crossing.red_to_black
    ∧ (monitor_step (some [LogLine.colorSnapshot 3 .red]) 3 Crossing.no_crossing Color.black
          = Decision.notify Crossing.red_to_black Color.black
        ↔ should_log_transition (some [LogLine.colorSnapshot 3 .red]) 3 Crossing.red_to_black
          = true)
    ∧ (∀ rm : Color,
        effective_crossing (some [LogLine.colorSnapshot 3 .red]) Crossing.red_to_black rm
          = Crossing.red_to_black
        ∧ effective_crossing (some [LogLine.colorSnapshot 3 .red]) Crossing.black_to_red rm
          = Crossing.black_to_red) :=
  C6_manual_inference (some [LogLine.colorSnapshot 3 .red]) 3 Color.black Color.red
    Crossing.red_to_black (by decide) (Or.inl ⟨rfl, rfl, rfl⟩)

theorem filter_range_eq_nil (p : Nat → Bool) (n : Nat) (h : ∀ i, i < n → p i = false) :
    (List.range n).filter p = [] := by
  rw [List.filter_eq_nil_iff]
  intro a ha
  rw [List.mem_range] at ha
  simp [h a ha]

theorem filter_range_eq_singleton (p : Nat → Bool) (n k : Nat) (hk : k < n)
    (h : ∀ i, i < n → (p i = true ↔ i = k)) : (List.range n).filter p = [k] := by
  induction n with
  | zero => omega
  | succ n ih =>
    rw [List.range_succ, List.filter_append]
    by_cases hkn : k = n
    · subst hkn
      rw [filter_range_eq_nil p k (fun i hi => by
        have hik : i ≠ k := by omega
        have hiff := h i (by omega)
        rw [Bool.eq_false_iff]
        intro hc
        exact hik (hiff.mp hc))]
      have hpk : p k = true := (h k (by omega)).mpr rfl
      simp [hpk]
    · have hk2 : k < n := by omega
      rw [ih hk2 (fun i hi => h i (by omega))]
      have hpn : p n = false := by
        rw [Bool.eq_false_iff]
        intro hc
        exact hkn ((h n (by omega)).mp hc).symm
      simp [hpn]

theorem getD_block (k m j : Nat) (d : Color) (hj : j < k + m) :
    (List.replicate k Color.black ++ List.replicate m Color.red).getD j d
      = if j < k then Color.black else Color.red := by
  rw [List.getD_eq_getElem?_getD]
  by_cases h : j < k
  · rw [List.getElem?_append_left (by simpa using h)]
    simp [List.getElem?_replicate, h]
  · rw [List.getElem?_append_right (by simpa using h)]
    rw [List.getElem?_replicate]
    rw [if_pos (by simp; omega)]
    simp [h]

/-- C5: a label sequence of k Black columns followed by m Red columns with
k, m > 0 classifies as black_to_red, with exactly one black-to-red transition,
located at column index k, and no red-to-black transitions. -/
theorem C5_block_transition (k m : Nat) (hk : 0 < k) (hm : 0 < m) :
    red_to_black_transitions (List.replicate k Color.black ++ List.replicate m Color.red) = []
    ∧ black_to_red_transitions (List.replicate k Color.black ++ List.replicate m Color.red) = [k]
    ∧ (classify_column_colors (List.replicate k Color.black ++ List.replicate m Color.red)).1
        = Crossing.black_to_red := by
  set L := List.replicate k Color.black ++ List.replicate m Color.red with hL
  have hlen : L.length = k + m := by simp [hL]
  have hrtb : red_to_black_transitions L = [] := by
    unfold red_to_black_transitions
    rw [hlen]
    apply filter_range_eq_nil
    intro i hi
    simp only [decide_eq_false_iff_not, not_and]
    intro hi0 h1 h2
    rw [getD_block k m (i - 1) Color.unknown (by omega)] at h1
    rw [getD_block k m i Color.unknown hi] at h2
    split_ifs at h1 h2 <;> simp_all <;> omega
  have hbtr : black_to_red_transitions L = [k] := by
    unfold black_to_red_transitions
    rw [hlen]
    apply filter_range_eq_singleton _ _ _ (by omega)
    intro i hi
    rw [decide_eq_true_eq]
    constructor
    · rintro ⟨hi0, h1, h2⟩
      rw [getD_block k m (i - 1) Color.unknown (by omega)] at h1
      rw [getD_block k m i Color.unknown hi] at h2
      split_ifs at h1 h2 <;> simp_all <;> omega
    · intro heq
      refine ⟨by omega, ?_, ?_⟩
      · rw [getD_block k m (i - 1) Color.unknown (by omega), if_pos (by omega)]
      · rw [getD_block k m i Color.unknown hi, if_neg (by omega)]
  have hred : Color.red ∈ L := by
    rw [hL]
    exact List.mem_append_right _ (List.mem_replicate.mpr ⟨by omega, rfl⟩)
  have hblack : Color.black ∈ L := by
    rw [hL]
    exact List.mem_append_left _ (List.mem_replicate.mpr ⟨by omega, rfl⟩)
  refine ⟨hrtb, hbtr, ?_⟩
  unfold classify_column_colors
  rw [if_neg (by simp [hred, hblack])]
  dsimp only
  rw [hrtb, hbtr]
  rfl

/-- Witness for C5 at k = 2, m = 3. -/
theorem C5_block_transition_witness :
    red_to_black_transitions (List.replicate 2 Color.black ++ List.replicate 3 Color.red) = []
    ∧ black_to_red_transitions (List.replicate 2 Color.black ++ List.replicate 3 Color.red) = [2]
    ∧ (classify_column_colors (List.replicate 2 Color.black ++ List.replicate 3 Color.red)).1
        = Crossing.black_to_red :=
  C5_block_transition 2 3 (by decide) (by decide)

/-- C10: with caller-supplied x bounds and a rectangular image of positive
width and height, the extracted region keeps at least one row and at least one
column, whatever the y bounds; with the x bounds omitted and the width at most
DEFAULT_START_X = 620, both clamped x bounds equal the width and every
extracted row has zero columns. -/
theorem C10_extract_middle_section (img : BGRImage) (w : Nat)
    (hrect : ∀ r ∈ img, r.length = w) (hh : 0 < img.length) (hw : 0 < w)
    (oy1 oy2 : Option Int) :
    (∀ sx ex : Int, ∃ out,
      extract_middle_section (some img) (some sx) (some ex) oy1 oy2 = some out
        ∧ 0 < out.length ∧ ∀ r ∈ out, 0 < r.length)
    ∧ (w ≤ 620 →
      ems_x_bounds w none none = ((w : Int), (w : Int))
        ∧ ∃ out, extract_middle_section (some img) none none oy1 oy2 = some out
            ∧ ∀ r ∈ out, r.length = 0) := by
  have hwidth : (img.headD []).length = w := by
    cases img with
    | nil => simp at hh
    | cons r rs => exact hrect r (List.mem_cons_self r rs)
  have hy : ∀ sy ey : Int,
      0 ≤ max 0 (min sy ((img.length : Int) - 1))
      ∧ (max 0 (min sy ((img.length : Int) - 1))).toNat ≤ img.length - 1
      ∧ max 0 (min sy ((img.length : Int) - 1)) + 1
          ≤ max (max 0 (min sy ((img.length : Int) - 1)) + 1) (min ey (img.length : Int)) := by
    intro sy ey
    refine ⟨by omega, by omega, by omega⟩
  constructor
  · intro sx ex
    refine ⟨_, rfl, ?_, ?_⟩
    · obtain ⟨hy1, hy2, hy3⟩ := hy (oy1.getD DEFAULT_START_Y) (oy2.getD DEFAULT_END_Y)
      rw [List.length_map, List.length_take, List.length_drop]
      omega
    · intro r hr
      rw [List.mem_map] at hr
      obtain ⟨row, hrow, hfr⟩ := hr
      have hrowl : row.length = w :=
        hrect row (List.mem_of_mem_drop (List.mem_of_mem_take hrow))
      rw [← hfr, List.length_take, List.length_drop, hrowl, hwidth]
      unfold ems_x_bounds
      dsimp only
      omega
  · intro hw620
    have hxb : ems_x_bounds w none none = ((w : Int), (w : Int)) := by
      unfold ems_x_bounds DEFAULT_START_X DEFAULT_END_X
      rw [Prod.mk.injEq]
      constructor <;> omega
    refine ⟨hxb, _, rfl, ?_⟩
    intro r hr
    rw [List.mem_map] at hr
    obtain ⟨row, _, hfr⟩ := hr
    rw [← hfr, List.length_take, hwidth, hxb]
    simp

/-- Witness for C10 at a one-pixel image with caller bounds 0 and 5 available
through the first conjunct and width 1 at most 620 through the second. -/
theorem C10_extract_middle_section_witness :
    (∀ sx ex : Int, ∃ out,
      extract_middle_section (some [[((0 : Nat), (0 : Nat), (0 : Nat))]]) (some sx) (some ex)
          none none = some out
        ∧ 0 < out.length ∧ ∀ r ∈ out, 0 < r.length)
    ∧ (1 ≤ 620 →
      ems_x_bounds 1 none none = ((1 : Int), (1 : Int))
        ∧ ∃ out, extract_middle_section (some [[((0 : Nat), (0 : Nat), (0 : Nat))]]) none none
            none none = some out
            ∧ ∀ r ∈ out, r.length = 0) :=
  C10_extract_middle_section [[((0 : Nat), (0 : Nat), (0 : Nat))]] 1
    (by decide) (by decide) (by decide) none none

theorem run_decisions_length (cs : List Cycle) (h : List LogLine) :
    (run_decisions h cs).length = cs.length := by
  induction cs generalizing h with
  | nil => rfl
  | cons c cs ih => simp [run_decisions, ih]

theorem run_hist_append (l1 l2 : List Cycle) (h : List LogLine) :
    run_hist h (l1 ++ l2) = run_hist (run_hist h l1) l2 := by
  induction l1 generalizing h with
  | nil => rfl
  | cons c cs ih => simp [run_hist, ih]

theorem run_hist_prefix (cs : List Cycle) (h : List LogLine) :
    ∃ t, run_hist h cs = h ++ t := by
  induction cs generalizing h with
  | nil => exact ⟨[], by simp [run_hist]⟩
  | cons c cs ih =>
    obtain ⟨t, ht⟩ := ih (step_cycle h c)
    refine ⟨entries_for c.today (monitor_step (some h) c.today c.current c.rightmost) ++ t, ?_⟩
    rw [run_hist, ht, step_cycle, List.append_assoc]

theorem run_hist_take_succ (h0 : List LogLine) (cs : List Cycle) (n : Nat) (hn : n < cs.length) :
    run_hist h0 (cs.take (n + 1)) = step_cycle (run_hist h0 (cs.take n)) (cs.getD n cyc0) := by
  rw [List.take_succ]
  have hg : cs[n]? = some (cs.getD n cyc0) := by
    rw [List.getElem?_eq_getElem hn, List.getD_eq_getElem?_getD, List.getElem?_eq_getElem hn]
    rfl
  rw [hg]
  rw [show (some (cs.getD n cyc0)).toList = [cs.getD n cyc0] from rfl]
  rw [run_hist_append]
  rfl

theorem run_hist_take_mono (h0 : List LogLine) (cs : List Cycle) (a b : Nat) (hab : a ≤ b) :
    ∃ t, run_hist h0 (cs.take b) = run_hist h0 (cs.take a) ++ t := by
  obtain ⟨n, rfl⟩ := Nat.exists_eq_add_of_le hab
  rw [List.take_add, run_hist_append]
  exact run_hist_prefix _ _

theorem run_decisions_getElem (cs : List Cycle) (h : List LogLine) (n : Nat) (hn : n < cs.length) :
    (run_decisions h cs)[n]? = some (monitor_step (some (run_hist h (cs.take n)))
      (cs.getD n cyc0).today (cs.getD n cyc0).current (cs.getD n cyc0).rightmost) := by
  induction cs generalizing h n with
  | nil => simp at hn
  | cons c cs ih =>
    cases n with
    | zero =>
      simp only [run_decisions, List.getElem?_cons_zero, List.take_zero, run_hist,
        List.getD_cons_zero]
    | succ n =>
      have hn2 : n < cs.length := by simpa using hn
      simp only [run_decisions, List.getElem?_cons_succ, List.take_succ_cons,
        List.getD_cons_succ, run_hist]
      exact ih (step_cycle h c) n hn2

theorem last_cross_kind_append (a b : List LogLine) :
    last_cross_kind (a ++ b)
      = match last_cross_kind b with
        | some kk => some kk
        | none => last_cross_kind a := by
  unfold last_cross_kind
  rw [List.reverse_append, List.findSome?_append]
  cases b.reverse.findSome? (fun l => match l with | LogLine.crossing _ kk => some kk | _ => none) <;> rfl

theorem glc_append (H e : List LogLine) :
    get_last_logged_crossing (some (H ++ e))
      = match last_cross_kind e with
        | some kk => kk.toCrossing
        | none => get_last_logged_crossing (some H) := by
  show (match last_cross_kind (H ++ e) with
    | some kk => kk.toCrossing
    | none => Crossing.no_crossing) = _
  rw [last_cross_kind_append]
  cases last_cross_kind e <;> rfl

theorem glc_step_notify (H : List LogLine) (d : Date) (k : Crossing) (c : Color)
    (hk : k ≠ Crossing.no_crossing) :
    get_last_logged_crossing (some (H ++ entries_for d (Decision.notify k c))) = k := by
  rw [glc_append]
  cases k with
  | no_crossing => exact absurd rfl hk
  | red_to_black => rfl
  | black_to_red => rfl

theorem mem_step_notify (H : List LogLine) (d : Date) (k : Crossing) (c : Color)
    (hk : k ≠ Crossing.no_crossing) :
    ∃ kk : CrossKind, kk.toCrossing = k
      ∧ LogLine.crossing d kk ∈ H ++ entries_for d (Decision.notify k c) := by
  cases k with
  | no_crossing => exact absurd rfl hk
  | red_to_black =>
    exact ⟨.red_to_black, rfl, List.mem_append_right _ (by simp [entries_for])⟩
  | black_to_red =>
    exact ⟨.black_to_red, rfl, List.mem_append_right _ (by simp [entries_for])⟩

theorem entries_no_crossing_line (d : Date) (dec : Decision)
    (hnot : ∀ k c, dec ≠ Decision.notify k c) :
    last_cross_kind (entries_for d dec) = none := by
  cases dec with
  | notify k c => exact absurd rfl (hnot k c)
  | unchangedSnapshot k c => rfl
  | crossingRemains k => rfl
  | snapshotNoCrossing c => rfl

theorem glc_step_other (H e : List LogLine) (he : last_cross_kind e = none) :
    get_last_logged_crossing (some (H ++ e)) = get_last_logged_crossing (some H) := by
  rw [glc_append, he]

theorem should_log_false_of_logged (H : List LogLine) (d : Date) (kk : CrossKind)
    (hglc : get_last_logged_crossing (some H) = kk.toCrossing)
    (hmem : LogLine.crossing d kk ∈ H) :
    should_log_transition (some H) d kk.toCrossing = false := by
  unfold should_log_transition
  rw [if_neg (by cases kk <;> simp [CrossKind.toCrossing])]
  rw [if_neg (by simp [hglc])]
  show (!(H.any fun l => is_crossing_line_of l d kk.toCrossing)) = false
  have hany : (H.any fun l => is_crossing_line_of l d kk.toCrossing) = true :=
    List.any_eq_true.mpr ⟨_, hmem, by simp [is_crossing_line_of]⟩
  rw [hany]
  rfl

theorem monitor_step_notify_inv (history : Option (List LogLine)) (d : Date)
    (cur : Crossing) (rm : Color) (k : Crossing) (c : Color)
    (hstep : monitor_step history d cur rm = Decision.notify k c) :
    k ≠ Crossing.no_crossing ∧ should_log_transition history d k = true ∧ c = rm := by
  unfold monitor_step at hstep
  dsimp only at hstep
  split_ifs at hstep with h1 h2 h3
  rw [Decision.notify.injEq] at hstep
  obtain ⟨hek, hrc⟩ := hstep
  rw [← hek]
  exact ⟨h1.1, h1.2, hrc.symm⟩

/-- C2 counterexample: starting from an empty history, the engine notifies
red_to_black at cycle 0 and again at cycle 2 on the same day 5 - the
"always log if different from the last crossing" rule re-admits the kind once
the opposite kind has been logged in between. -/
theorem C2_counterexample :
    (run_decisions [] c2_cycles)[0]? = some (Decision.notify Crossing.red_to_black Color.black)
    ∧ (run_decisions [] c2_cycles)[2]? = some (Decision.notify Crossing.red_to_black Color.black)
    ∧ (c2_cycles.getD 0 cyc0).today = (c2_cycles.getD 2 cyc0).today := by
  decide

/-- C2 amended: across every sequence of classify-and-decide cycles, two
notifications of the same crossing kind on the same calendar day only occur
with a notification of a different kind strictly between them; without such an
intervening notification the second same-kind, same-day notification is
impossible. -/
theorem C2_same_day_dedup (h0 : List LogLine) (cs : List Cycle) (i j : Nat)
    (k : Crossing) (ci cj : Color) (hij : i < j) (hj : j < cs.length)
    (hdi : (run_decisions h0 cs)[i]? = some (Decision.notify k ci))
    (hdj : (run_decisions h0 cs)[j]? = some (Decision.notify k cj))
    (hday : (cs.getD i cyc0).today = (cs.getD j cyc0).today) :
    ∃ l kx cx, i < l ∧ l < j ∧ kx ≠ k
      ∧ (run_decisions h0 cs)[l]? = some (Decision.notify kx cx) := by
  by_contra hcon
  push_neg at hcon
  have hi : i < cs.length := lt_trans hij hj
  rw [run_decisions_getElem cs h0 i hi] at hdi
  have hdi2 := Option.some.inj hdi
  obtain ⟨hknc, hsli, hci⟩ := monitor_step_notify_inv _ _ _ _ _ _ hdi2
  have hstep_i : run_hist h0 (cs.take (i + 1))
      = run_hist h0 (cs.take i)
        ++ entries_for (cs.getD i cyc0).today (Decision.notify k ci) := by
    rw [run_hist_take_succ h0 cs i hi]
    unfold step_cycle
    rw [hdi2]
  obtain ⟨kk, hkk, hmem1⟩ :=
    mem_step_notify (run_hist h0 (cs.take i)) (cs.getD i cyc0).today k ci hknc
  have hinv : ∀ m, i + 1 ≤ m → m ≤ j →
      get_last_logged_crossing (some (run_hist h0 (cs.take m))) = k
      ∧ LogLine.crossing (cs.getD i cyc0).today kk ∈ run_hist h0 (cs.take m) := by
    intro m hm
    induction m, hm using Nat.le_induction with
    | base =>
      intro _
      rw [hstep_i]
      exact ⟨glc_step_notify _ (cs.getD i cyc0).today k ci hknc, hmem1⟩
    | succ n hn ih =>
      intro hnj
      obtain ⟨ihg, ihm⟩ := ih (by omega)
      have hnlen : n < cs.length := by omega
      rw [run_hist_take_succ h0 cs n hnlen]
      unfold step_cycle
      cases hdec : monitor_step (some (run_hist h0 (cs.take n))) (cs.getD n cyc0).today
          (cs.getD n cyc0).current (cs.getD n cyc0).rightmost with
      | notify kx cx =>
        have hdl : (run_decisions h0 cs)[n]? = some (Decision.notify kx cx) := by
          rw [run_decisions_getElem cs h0 n hnlen, hdec]
        have hkx : kx = k := by
          by_contra hne
          exact hcon n kx cx (by omega) (by omega) hne hdl
        subst hkx
        exact ⟨glc_step_notify _ _ kx cx hknc, List.mem_append_left _ ihm⟩
      | unchangedSnapshot kx cx =>
        refine ⟨?_, List.mem_append_left _ ihm⟩
        rw [glc_step_other _ _ (entries_no_crossing_line _ _ (by simp))]
        exact ihg
      | crossingRemains kx =>
        refine ⟨?_, List.mem_append_left _ ihm⟩
        rw [glc_step_other _ _ (entries_no_crossing_line _ _ (by simp))]
        exact ihg
      | snapshotNoCrossing cx =>
        refine ⟨?_, List.mem_append_left _ ihm⟩
        rw [glc_step_other _ _ (entries_no_crossing_line _ _ (by simp))]
        exact ihg
  obtain ⟨hgj, hmemj⟩ := hinv j (by omega) (le_refl j)
  rw [run_decisions_getElem cs h0 j hj] at hdj
  have hdj2 := Option.some.inj hdj
  obtain ⟨_, hslj, _⟩ := monitor_step_notify_inv _ _ _ _ _ _ hdj2
  rw [← hday] at hslj
  have hgj2 : get_last_logged_crossing (some (run_hist h0 (cs.take j))) = kk.toCrossing := by
    rw [hgj, hkk]
  have hfalse :=
    should_log_false_of_logged (run_hist h0 (cs.take j)) (cs.getD i cyc0).today kk hgj2 hmemj
  rw [hkk] at hfalse
  rw [hslj] at hfalse
  simp at hfalse

/-- Witness for the amended C2 on the counterexample cycles: the two
red_to_black notifications at cycles 0 and 2 have the black_to_red
notification at cycle 1 between them. -/
theorem C2_same_day_dedup_witness :
    ∃ l kx cx, 0 < l ∧ l < 2 ∧ kx ≠ Crossing.red_to_black
      ∧ (run_decisions [] c2_cycles)[l]? = some (Decision.notify kx cx) :=
  C2_same_day_dedup [] c2_cycles 0 2 Crossing.red_to_black Color.black Color.black
    (by decide) (by decide) (by decide) (by decide) (by decide)

end StockMonitor
